import Mathlib

/-!
Verification of the todoist-backups repository core against its
natural-language specification.

The Go source is shallowly embedded below:

* `apiclient.DoWithRetries` (src/apiclient/apiclient.go) becomes
  `DoWithRetries` / `retryLoop`, with the sequence of HTTP responses
  modelled as a function from the attempt index to the status code
  (transport-level failures are out of scope of the claims and are not
  modelled).
* `todoist.LatestAvailableBackup` (src/todoist/todoist.go) becomes
  `LatestAvailableBackup`; Go's `time.Parse "2006-01-02 15:04"` becomes
  `parseTodoistTime`, and comparison of the parsed instants
  (`time.Time.After`) becomes `tsAfter`, via the proleptic Gregorian
  minute count `toMinutes`.
* `todoist.GetBackup` (src/todoist/todoist.go) becomes `GetBackup`; the
  response body is a byte list and `io.LimitReader`/`io.Copy` become
  `List.take`.
* `onedrive.cleanFilename` (the sanitizer) becomes `cleanFilename`;
  Go's byte length `len` becomes `goLen` (UTF-8 byte count),
  `strings.Trim(s, "/")` becomes `trimSlashes`, the character-class
  replacement becomes `List.map replaceChar`, `strings.Split(s, "/")`
  becomes `splitOnSlash`, `path.Split` becomes `lastSegment`, and
  `strings.Contains` becomes `hasSub`.
* `runBackup` (src/main.go, Google Drive variant) and
  `gdrive.UploadFile` (src/gdrive/gdrive.go) become `runBackup` and
  `UploadFile`; the catalog, payload and folder-query results are inputs.
-/

/-! ### Retry client (src/apiclient/apiclient.go) -/

/-- Result of one `DoWithRetries` call: the final response status, the
total number of attempts made (retries = attempts - 1), and the error
returned alongside the response (`none` on success). -/
structure RetryResult where
  status : Nat
  attempts : Nat
  err : Option String
deriving DecidableEq

/-- The non-5xx arms of the `switch` in `DoWithRetries`: a 4xx response
is an error, a 2xx response succeeds, anything else is unexpected. -/
def finishRetry (st attempt : Nat) : RetryResult :=
  if st - st % 100 = 400 then
    { status := st, attempts := attempt + 1,
      err := some ("got client error " ++ toString st) }
  else if st - st % 100 = 200 then
    { status := st, attempts := attempt + 1, err := none }
  else
    { status := st, attempts := attempt + 1,
      err := some ("got unexpected response code " ++ toString st) }

/-- The retry loop of `DoWithRetries`: `respAt i` is the status code of
the response to attempt `i` (0-based), `attempt` the index of the next
attempt, the last argument the remaining retry budget. Mirrors the
`goto send` loop: on a 5xx response with budget left it decrements and
resends; with the budget exhausted it returns the last response and an
error. The interleaved `time.Sleep` does not affect the returned
value. -/
def retryLoop (respAt : Nat → Nat) (url : String) (maxRetries : Nat) :
    Nat → Nat → RetryResult
  | attempt, 0 =>
    let st := respAt attempt
    if st - st % 100 = 500 then
      { status := st, attempts := attempt + 1,
        err := some ("the request to " ++ url ++ " failed after "
          ++ toString maxRetries ++ " retries") }
    else finishRetry st attempt
  | attempt, r + 1 =>
    let st := respAt attempt
    if st - st % 100 = 500 then retryLoop respAt url maxRetries (attempt + 1) r
    else finishRetry st attempt

/-- `apiclient.DoWithRetries`: sends the request, classifying each
response by `StatusCode - StatusCode % 100`, starting with a retry
budget of `maxRetries`. -/
def DoWithRetries (respAt : Nat → Nat) (url : String) (maxRetries : Nat) :
    RetryResult :=
  retryLoop respAt url maxRetries 0 maxRetries

/-- Decidable equality of `Except` results, for evaluating the
embeddings on concrete inputs. -/
instance {ε α : Type} [DecidableEq ε] [DecidableEq α] :
    DecidableEq (Except ε α) := fun x y =>
  match x, y with
  | .ok a, .ok b =>
    if h : a = b then isTrue (by rw [h])
    else isFalse (by intro he; cases he; exact h rfl)
  | .error a, .error b =>
    if h : a = b then isTrue (by rw [h])
    else isFalse (by intro he; cases he; exact h rfl)
  | .ok _, .error _ => isFalse (by intro he; cases he)
  | .error _, .ok _ => isFalse (by intro he; cases he)

/-! ### Backup selection (src/todoist/todoist.go) -/

/-- `todoist.AvailableBackup`: one catalog entry. -/
structure AvailableBackup where
  Version : String
  URL : String
deriving DecidableEq

/-- A wall-clock timestamp as parsed from a Todoist version label. -/
structure Timestamp where
  year : Nat
  month : Nat
  day : Nat
  hour : Nat
  minute : Nat
deriving DecidableEq

/-- The zero `time.Time` value: January 1 of year 1, 00:00. -/
def zeroTimestamp : Timestamp := ⟨1, 1, 1, 0, 0⟩

/-- Proleptic Gregorian leap-year rule, as in Go's `time` package. -/
def isLeapYear (y : Nat) : Bool :=
  decide ((y % 4 = 0 ∧ y % 100 ≠ 0) ∨ y % 400 = 0)

/-- Lengths of the twelve months of year `y`. -/
def monthLengths (y : Nat) : List Nat :=
  [31, if isLeapYear y then 29 else 28, 31, 30, 31, 30, 31, 31, 30, 31, 30, 31]

/-- Number of days in month `M` (1-based) of year `y`. -/
def daysInMonth (y M : Nat) : Nat := (monthLengths y).getD (M - 1) 31

/-- Days strictly before month `M` (1-based) within year `y`. -/
def daysBeforeMonth (y M : Nat) : Nat := ((monthLengths y).take (M - 1)).sum

/-- Days from January 1 of year 1 to January 1 of year `y`
(negative for year 0), proleptic Gregorian. -/
def daysBeforeYear (y : Nat) : Int :=
  let n : Int := (y : Int) - 1
  365 * n + Int.fdiv n 4 - Int.fdiv n 100 + Int.fdiv n 400

/-- Minutes since the zero `time.Time` (January 1, year 1, 00:00).
Comparison of these counts models comparison of `time.Time` instants. -/
def toMinutes (t : Timestamp) : Int :=
  ((daysBeforeYear t.year + daysBeforeMonth t.year t.month + ((t.day : Int) - 1))
      * 24 + t.hour) * 60 + t.minute

/-- `time.Time.After`: `a` is strictly after `b`. -/
def tsAfter (a b : Timestamp) : Bool := decide (toMinutes b < toMinutes a)

/-- Decimal digit value of a character, if it is a digit. -/
def digitVal? (c : Char) : Option Nat :=
  if c.isDigit then some (c.toNat - '0'.toNat) else none

/-- Two fixed decimal digits (Go `getnum` with `fixed = true`). -/
def num2 (a b : Char) : Option Nat := do
  let x ← digitVal? a
  let y ← digitVal? b
  pure (x * 10 + y)

/-- Four fixed decimal digits (Go's `stdLongYear`). -/
def num4 (a b c d : Char) : Option Nat := do
  let x ← num2 a b
  let y ← num2 c d
  pure (x * 100 + y)

/-- One or two decimal digits (Go `getnum` with `fixed = false`, used for
the `15` hour field): two digits are consumed when the second character
is also a digit, otherwise one. Returns the value and the rest. -/
def parseHour : List Char → Option (Nat × List Char)
  | [] => none
  | [a] => do pure ((← digitVal? a), [])
  | a :: b :: rest => do
    let x ← digitVal? a
    match digitVal? b with
    | some y => pure (x * 10 + y, rest)
    | none => pure (x, b :: rest)

/-- Go `time.Parse "2006-01-02 15:04"` on a version label: a 4-digit
year, 2-digit month and day, a 1- or 2-digit hour and a 2-digit minute,
with the whole string consumed and every field range-checked. -/
def parseTodoistTime (s : String) : Option Timestamp :=
  match s.data with
  | y1 :: y2 :: y3 :: y4 :: '-' :: M1 :: M2 :: '-' :: d1 :: d2 :: ' ' :: rest => do
    let y ← num4 y1 y2 y3 y4
    let M ← num2 M1 M2
    let d ← num2 d1 d2
    let (h, rest2) ← parseHour rest
    match rest2 with
    | ':' :: mi1 :: mi2 :: [] => do
      let mi ← num2 mi1 mi2
      if 1 ≤ M ∧ M ≤ 12 ∧ 1 ≤ d ∧ d ≤ daysInMonth y M ∧ h ≤ 23 ∧ mi ≤ 59 then
        pure ⟨y, M, d, h, mi⟩
      else none
    | _ => none
  | _ => none

/-- The parsed timestamp of a catalog entry (zero when unparsable; only
used under a parses-successfully hypothesis or after a `some` match). -/
def parsedVersion (t : AvailableBackup) : Timestamp :=
  (parseTodoistTime t.Version).getD zeroTimestamp

/-- The scan loop of `todoist.LatestAvailableBackup`: `cur` is
`latestTime`, `best` is `latestAB`. Fails fast on a blank URL or an
unparsable version; replaces the running maximum only on strict
`After`. -/
def latestLoop : List AvailableBackup → Timestamp → AvailableBackup →
    Except String AvailableBackup
  | [], _, best => .ok best
  | t :: rest, cur, best =>
    if t.URL = "" then
      .error "the list of possible backups includes a blank URL"
    else
      match parseTodoistTime t.Version with
      | none => .error ("cannot parse time " ++ t.Version)
      | some m =>
        if tsAfter m cur then latestLoop rest m t else latestLoop rest cur best

/-- `todoist.LatestAvailableBackup`: empty catalog fails; otherwise scan
with the zero time and zero-valued entry as initial running maximum. -/
def LatestAvailableBackup (ab : List AvailableBackup) :
    Except String AvailableBackup :=
  if ab.length = 0 then .error "the list of available backups is empty"
  else latestLoop ab zeroTimestamp ⟨"", ""⟩

/-- Pure projection of the scan loop, used to reason about it: the
running `(latestTime, latestAB)` pair after folding the list. -/
def runMax : List AvailableBackup → Timestamp → AvailableBackup →
    Timestamp × AvailableBackup
  | [], cur, best => (cur, best)
  | t :: rest, cur, best =>
    if tsAfter (parsedVersion t) cur then runMax rest (parsedVersion t) t
    else runMax rest cur best

/-! ### Filename sanitizer (src/unnamed/part_001, `onedrive.cleanFilename`) -/

/-- Go's `len` on a string: its UTF-8 byte count. -/
def goLen (l : List Char) : Nat := (l.map Char.utf8Size).sum

/-- Membership in the regular-expression character class
`["*:<>?\\|]`, i.e. one of `" * : < > ? \ |` (`/` excluded: it is the
path separator). -/
def illegalChar (c : Char) : Bool :=
  c = '"' || c = '*' || c = ':' || c = '<' || c = '>' || c = '?' ||
    c = '\\' || c = '|'

/-- One step of `ReplaceAllString`: an illegal character becomes `_`. -/
def replaceChar (c : Char) : Char := if illegalChar c then '_' else c

/-- `strings.Trim(s, "/")`: remove all leading and all trailing `/`. -/
def trimSlashes (l : List Char) : List Char :=
  (((l.dropWhile (fun c => c == '/')).reverse.dropWhile
    (fun c => c == '/'))).reverse

/-- `strings.Split(s, "/")`: the `/`-separated segments (the list is
never empty; splitting the empty string yields one empty segment). -/
def splitOnSlash : List Char → List (List Char)
  | [] => [[]]
  | '/' :: rest => [] :: splitOnSlash rest
  | c :: rest =>
    match splitOnSlash rest with
    | [] => [[c]]
    | s :: ss => (c :: s) :: ss

/-- The file part of `path.Split`: everything after the final `/`. -/
def lastSegment (l : List Char) : List Char := (splitOnSlash l).getLastD []

/-- `strings.Contains hay needle`: `needle` occurs as a contiguous
substring of `hay`. -/
def hasSub (hay needle : List Char) : Bool :=
  match hay with
  | [] => needle.isEmpty
  | _ :: t => needle.isPrefixOf hay || hasSub t needle

/-- Exact match of one path segment against the disallowed-name pattern
`^(\.lock|CON|PRN|AUX|NUL|COM[0-9]|LPT[0-9]|_vti_|desktop\.ini)$`
(case-sensitive: the Go regexp is compiled without `(?i)`). -/
def disallowedName (p : List Char) : Bool :=
  p == ".lock".data || p == "CON".data || p == "PRN".data ||
    p == "AUX".data || p == "NUL".data ||
    (match p with
     | ['C', 'O', 'M', c] => c.isDigit
     | _ => false) ||
    (match p with
     | ['L', 'P', 'T', c] => c.isDigit
     | _ => false) ||
    p == "_vti_".data || p == "desktop.ini".data

/-- `onedrive.cleanFilename`: length check, trim, character
replacement, `~$` and `_vti_` substring checks on the final segment of
the original path, then the disallowed-name check on every segment of
the original path; on success returns the trimmed, replaced string. -/
def cleanFilename (s : String) : Except String String :=
  if 400 < goLen s.data then
    .error "the filepath cannot exceed 400 characters"
  else if hasSub (lastSegment s.data) "~$".data then
    .error "the filename cannot include \"~$\""
  else if hasSub (lastSegment s.data) "_vti_".data then
    .error "the filename cannot include \"_vti_\""
  else
    match (splitOnSlash s.data).find? disallowedName with
    | some p =>
      .error (String.mk ("filepath contains disallowed file/folder name: ".data ++ p))
    | none => .ok (String.mk ((trimSlashes s.data).map replaceChar))

/-! ### Payload transfer (src/todoist/todoist.go, `GetBackup`) -/

/-- `todoist.GetBackup`: request the payload through `DoWithRetries`
(budget 6, as in the source), fail on a retry error or a non-200
status; otherwise copy the body through `io.LimitReader(·, maxBytes)`
and fail when the copied count reaches `maxBytes`. `respAt` gives the
status of each attempt and `payload` the response body; on success the
result is the bytes written to the caller's buffer. -/
def GetBackup (respAt : Nat → Nat) (url : String) (payload : List UInt8)
    (maxBytes : Nat) : Except String (List UInt8) :=
  let r := DoWithRetries respAt url 6
  match r.err with
  | some e =>
    .error ("unexpected response while grabbing the latest Todoist backups: " ++ e)
  | none =>
    if r.status ≠ 200 then
      .error ("got client error " ++ toString r.status ++ " for URL " ++ url)
    else
      let copied := payload.take maxBytes
      if maxBytes ≤ copied.length then
        .error "backup size exceeded upload limit"
      else .ok copied

/-! ### Upload and backup cycle (src/gdrive/gdrive.go, src/main.go) -/

/-- The `Files.Create` call issued against the Google Drive API. -/
structure DriveCreateCall where
  mimeType : String
  name : String
  parents : List String
deriving DecidableEq

/-- `gdrive.UploadFile`: resolve the folder name to exactly one folder
id (`folders` is the result of the `Files.List` query), then create the
file with the provided name, verbatim. -/
def UploadFile (filename : String) (folders : List String) :
    Except String DriveCreateCall :=
  match folders with
  | [] => .error "could not find backup folder"
  | [d] => .ok ⟨"application/zip", filename, [d]⟩
  | _ => .error "unexpected number of Todoist backup folders"

/-- `maxResponseBodyBytes` from src/main.go: 5 MB. -/
def maxResponseBodyBytes : Nat := 5000000

/-- `runBackup` (src/main.go, Google Drive variant): select the latest
backup from the catalog `ab`, fetch its payload, and hand the buffer
and the backup's version label to `gdrive.UploadFile`. The catalog,
response statuses, payload and folder-query results are inputs; a
`log.Fatal` in the source is an `Except.error` here. -/
def runBackup (ab : List AvailableBackup) (respAt : Nat → Nat)
    (payload : List UInt8) (folders : List String) :
    Except String DriveCreateCall :=
  match LatestAvailableBackup ab with
  | .error e => .error e
  | .ok u =>
    match GetBackup respAt u.URL payload maxResponseBodyBytes with
    | .error e => .error e
    | .ok _ => UploadFile u.Version folders

/-! ## Lemmas about the retry client -/

theorem retryLoop_all_500 (respAt : Nat → Nat) (url : String) (m : Nat)
    (h : ∀ i, respAt i = 500) :
    ∀ remaining attempt, retryLoop respAt url m attempt remaining =
      ⟨500, attempt + remaining + 1,
        some ("the request to " ++ url ++ " failed after "
          ++ toString m ++ " retries")⟩ := by
  intro remaining
  induction remaining with
  | zero => intro attempt; simp [retryLoop, h]
  | succ r ih =>
    intro attempt
    rw [retryLoop]
    simp only [h]
    rw [if_pos (by norm_num)]
    rw [ih (attempt + 1)]
    congr 1
    omega

theorem retryLoop_500_then_200 (respAt : Nat → Nat) (url : String) (m : Nat) :
    ∀ remaining attempt, (∀ i, i < remaining → respAt (attempt + i) = 500) →
      respAt (attempt + remaining) = 200 →
      retryLoop respAt url m attempt remaining =
        ⟨200, attempt + remaining + 1, none⟩ := by
  intro remaining
  induction remaining with
  | zero =>
    intro attempt _ h200
    rw [Nat.add_zero] at h200
    simp [retryLoop, finishRetry, h200]
  | succ r ih =>
    intro attempt h500 h200
    have h0 : respAt attempt = 500 := by
      have := h500 0 (Nat.succ_pos r)
      rwa [Nat.add_zero] at this
    rw [retryLoop]
    simp only [h0]
    rw [if_pos (by norm_num)]
    rw [ih (attempt + 1) (fun i hi => by
          have h1 := h500 (i + 1) (by omega)
          rw [(by omega : attempt + 1 + i = attempt + (i + 1))]
          exact h1)
        (by rw [(by omega : attempt + 1 + r = attempt + (r + 1))]; exact h200)]
    congr 1
    omega

theorem retryLoop_first_not_500 (respAt : Nat → Nat) (url : String)
    (m attempt remaining : Nat)
    (h : respAt attempt - respAt attempt % 100 ≠ 500) :
    retryLoop respAt url m attempt remaining = finishRetry (respAt attempt) attempt := by
  cases remaining with
  | zero => simp [retryLoop, h]
  | succ r => simp [retryLoop, h]

/-- Claim C2: for the retry client, a request answered 500 on each of
the first `maxRetries` attempts and 200 on the next returns the 200
response with no error; a request answered 500 on every attempt returns
an error after exactly `maxRetries` retries, i.e. `maxRetries + 1`
total attempts; and a 404 response is returned together with an error
after a single attempt, with zero retries. -/
theorem claim_c2 (respAt : Nat → Nat) (url : String) (m : Nat) :
    ((∀ i, i < m → respAt i = 500) → respAt m = 200 →
      DoWithRetries respAt url m = ⟨200, m + 1, none⟩)
    ∧ ((∀ i, respAt i = 500) →
      DoWithRetries respAt url m =
        ⟨500, m + 1, some ("the request to " ++ url ++ " failed after "
          ++ toString m ++ " retries")⟩)
    ∧ (respAt 0 = 404 →
      DoWithRetries respAt url m =
        ⟨404, 1, some ("got client error " ++ toString 404)⟩) := by
  refine ⟨?_, ?_, ?_⟩
  · intro h500 h200
    have := retryLoop_500_then_200 respAt url m m 0
      (fun i hi => by rw [Nat.zero_add]; exact h500 i hi)
      (by rw [Nat.zero_add]; exact h200)
    rw [DoWithRetries, this, Nat.zero_add]
  · intro h
    have := retryLoop_all_500 respAt url m h m 0
    rw [DoWithRetries, this, Nat.zero_add]
  · intro h
    have := retryLoop_first_not_500 respAt url m 0 m (by rw [h]; decide)
    rw [DoWithRetries, this, h]
    rfl

/-- Witness for C2 at concrete inputs: retry budget 2, with a trace
that recovers on the third attempt, an always-500 trace, and an
immediate 404. -/
theorem claim_c2_witness :
    DoWithRetries (fun i => if i < 2 then 500 else 200) "u" 2 = ⟨200, 3, none⟩
    ∧ DoWithRetries (fun _ => 500) "u" 2 =
      ⟨500, 3, some ("the request to " ++ "u" ++ " failed after "
        ++ toString 2 ++ " retries")⟩
    ∧ DoWithRetries (fun _ => 404) "u" 2 =
      ⟨404, 1, some ("got client error " ++ toString 404)⟩ :=
  ⟨(claim_c2 (fun i => if i < 2 then 500 else 200) "u" 2).1
      (fun i hi => if_pos hi) (by norm_num),
    (claim_c2 (fun _ => 500) "u" 2).2.1 (fun _ => rfl),
    (claim_c2 (fun _ => 404) "u" 2).2.2 rfl⟩

/-! ## Lemmas about backup selection -/

theorem tsAfter_true_iff (a b : Timestamp) :
    tsAfter a b = true ↔ toMinutes b < toMinutes a := by
  simp [tsAfter]

theorem tsAfter_false_iff (a b : Timestamp) :
    tsAfter a b = false ↔ toMinutes a ≤ toMinutes b := by
  simp [tsAfter]

theorem tsAfter_self (a : Timestamp) : tsAfter a a = false := by
  rw [tsAfter_false_iff]

theorem latestLoop_eq_runMax :
    ∀ (l : List AvailableBackup) (cur : Timestamp) (best : AvailableBackup),
      (∀ t ∈ l, t.URL ≠ "" ∧ (parseTodoistTime t.Version).isSome = true) →
      latestLoop l cur best = .ok (runMax l cur best).2 := by
  intro l
  induction l with
  | nil => intro cur best _; simp [latestLoop, runMax]
  | cons t rest ih =>
    intro cur best h
    obtain ⟨hurl, hsome⟩ := h t (List.mem_cons_self t rest)
    obtain ⟨m, hm⟩ := Option.isSome_iff_exists.mp hsome
    have hpv : parsedVersion t = m := by simp [parsedVersion, hm]
    have hred : latestLoop (t :: rest) cur best =
        if tsAfter m cur = true then latestLoop rest m t
        else latestLoop rest cur best := by
      rw [latestLoop, if_neg hurl, hm]
    rw [hred, runMax, hpv]
    by_cases hc : tsAfter m cur
    · rw [if_pos hc, if_pos hc]
      exact ih m t (fun u hu => h u (List.mem_cons_of_mem t hu))
    · rw [if_neg hc, if_neg hc]
      exact ih cur best (fun u hu => h u (List.mem_cons_of_mem t hu))

theorem runMax_spec :
    ∀ (l : List AvailableBackup) (cur : Timestamp) (best : AvailableBackup),
      (runMax l cur best = (cur, best) ∧
        ∀ t ∈ l, tsAfter (parsedVersion t) cur = false)
      ∨ (∃ i, ∃ h : i < l.length,
          runMax l cur best = (parsedVersion l[i], l[i]) ∧
          tsAfter (parsedVersion l[i]) cur = true ∧
          (∀ j, ∀ hj : j < l.length,
            tsAfter (parsedVersion l[j]) (parsedVersion l[i]) = false) ∧
          (∀ j, ∀ hj : j < l.length, j < i →
            tsAfter (parsedVersion l[i]) (parsedVersion l[j]) = true)) := by
  intro l
  induction l with
  | nil => intro cur best; left; exact ⟨rfl, by simp⟩
  | cons t rest ih =>
    intro cur best
    by_cases hc : tsAfter (parsedVersion t) cur = true
    · have hstep : runMax (t :: rest) cur best = runMax rest (parsedVersion t) t := by
        rw [runMax, if_pos hc]
      rcases ih (parsedVersion t) t with ⟨heq, hall⟩ | ⟨i, hi, heq, hgt, hmax, hfirst⟩
      · right
        refine ⟨0, by simp, ?_, ?_, ?_, ?_⟩
        · rw [hstep, heq]; simp
        · simpa using hc
        · intro j hj
          match j with
          | 0 => simpa using tsAfter_self (parsedVersion t)
          | j + 1 =>
            have hjr : j < rest.length := by simpa using hj
            have := hall (rest[j]) (List.getElem_mem hjr)
            simpa using this
        · intro j _ hj0; omega
      · right
        have hi1 : i + 1 < (t :: rest).length := by simpa using Nat.succ_lt_succ hi
        refine ⟨i + 1, hi1, ?_, ?_, ?_, ?_⟩
        · rw [hstep, heq]; simp
        · rw [tsAfter_true_iff] at hgt hc ⊢
          simp only [List.getElem_cons_succ]
          omega
        · intro j hj
          match j with
          | 0 =>
            simp only [List.getElem_cons_zero, List.getElem_cons_succ]
            rw [tsAfter_false_iff]
            rw [tsAfter_true_iff] at hgt
            omega
          | j + 1 =>
            have hjr : j < rest.length := by simpa using hj
            have := hmax j hjr
            simpa using this
        · intro j hj hlt
          match j with
          | 0 =>
            simp only [List.getElem_cons_zero, List.getElem_cons_succ]
            exact hgt
          | j + 1 =>
            have hjr : j < rest.length := by simpa using hj
            have := hfirst j hjr (by omega)
            simpa using this
    · have hc' : tsAfter (parsedVersion t) cur = false := by
        revert hc; cases tsAfter (parsedVersion t) cur <;> simp
      have hstep : runMax (t :: rest) cur best = runMax rest cur best := by
        rw [runMax, if_neg (by simp [hc'])]
      rcases ih cur best with ⟨heq, hall⟩ | ⟨i, hi, heq, hgt, hmax, hfirst⟩
      · left
        refine ⟨by rw [hstep, heq], ?_⟩
        intro u hu
        rcases List.mem_cons.mp hu with h1 | h2
        · rw [h1]; exact hc'
        · exact hall u h2
      · right
        have hi1 : i + 1 < (t :: rest).length := by simpa using Nat.succ_lt_succ hi
        refine ⟨i + 1, hi1, ?_, ?_, ?_, ?_⟩
        · rw [hstep, heq]; simp
        · simpa using hgt
        · intro j hj
          match j with
          | 0 =>
            simp only [List.getElem_cons_zero, List.getElem_cons_succ]
            rw [tsAfter_false_iff]
            rw [tsAfter_false_iff] at hc'
            rw [tsAfter_true_iff] at hgt
            omega
          | j + 1 =>
            have hjr : j < rest.length := by simpa using hj
            have := hmax j hjr
            simpa using this
        · intro j hj hlt
          match j with
          | 0 =>
            simp only [List.getElem_cons_zero, List.getElem_cons_succ]
            rw [tsAfter_true_iff]
            rw [tsAfter_false_iff] at hc'
            rw [tsAfter_true_iff] at hgt
            omega
          | j + 1 =>
            have hjr : j < rest.length := by simpa using hj
            have := hfirst j hjr (by omega)
            simpa using this

theorem latestLoop_zero :
    ∀ (l : List AvailableBackup),
      (∀ t ∈ l, t.URL ≠ "" ∧ parseTodoistTime t.Version = some zeroTimestamp) →
      ∀ best, latestLoop l zeroTimestamp best = .ok best := by
  intro l
  induction l with
  | nil => intro _ best; rfl
  | cons t rest ih =>
    intro h best
    obtain ⟨hurl, hm⟩ := h t (List.mem_cons_self t rest)
    have hred : latestLoop (t :: rest) zeroTimestamp best =
        if tsAfter zeroTimestamp zeroTimestamp = true
        then latestLoop rest zeroTimestamp t
        else latestLoop rest zeroTimestamp best := by
      rw [latestLoop, if_neg hurl, hm]
    rw [hred, if_neg (by rw [tsAfter_self]; simp)]
    exact ih (fun u hu => h u (List.mem_cons_of_mem t hu)) best

/-- Claim C3 counterexample: a catalog whose only entry carries the
version label `0001-01-01 00:00` (which parses under the fixed format
and has a non-empty URL) does not yield that entry: the zero-valued
candidate is returned instead, so `selectLatest` does not always return
a candidate of the input set. -/
theorem claim_c3_counterexample :
    LatestAvailableBackup [⟨"0001-01-01 00:00", "a"⟩] = .ok ⟨"", ""⟩
    ∧ (⟨"", ""⟩ : AvailableBackup) ∉
        [(⟨"0001-01-01 00:00", "a"⟩ : AvailableBackup)] :=
  ⟨by decide, by decide⟩

/-- Claim C3 (amended): for every non-empty candidate set in which
every candidate has a non-empty URL and a version parsing under the
fixed format, and at least one candidate's parsed timestamp is strictly
after Go's zero time `0001-01-01 00:00`, `LatestAvailableBackup`
returns, with no error, the full candidate whose parsed timestamp is
the latest; when several candidates share the maximal timestamp the
first one in scan order is returned (every earlier candidate is
strictly earlier). -/
theorem claim_c3_amended (ab : List AvailableBackup) (hne : ab ≠ [])
    (hok : ∀ t ∈ ab, t.URL ≠ "" ∧ (parseTodoistTime t.Version).isSome = true)
    (hpos : ∃ t ∈ ab, tsAfter (parsedVersion t) zeroTimestamp = true) :
    ∃ i, ∃ h : i < ab.length,
      LatestAvailableBackup ab = .ok ab[i] ∧
      (∀ j, ∀ hj : j < ab.length,
        tsAfter (parsedVersion ab[j]) (parsedVersion ab[i]) = false) ∧
      (∀ j, ∀ hj : j < ab.length, j < i →
        tsAfter (parsedVersion ab[i]) (parsedVersion ab[j]) = true) := by
  have hlen : ¬ ab.length = 0 := fun h0 => hne (List.length_eq_zero.mp h0)
  rw [LatestAvailableBackup, if_neg hlen]
  rw [latestLoop_eq_runMax ab zeroTimestamp ⟨"", ""⟩ hok]
  rcases runMax_spec ab zeroTimestamp ⟨"", ""⟩ with
    ⟨_, hall⟩ | ⟨i, hi, heq, _, hmax, hfirst⟩
  · obtain ⟨t, ht, hta⟩ := hpos
    rw [hall t ht] at hta
    cases hta
  · exact ⟨i, hi, by rw [heq], hmax, hfirst⟩

/-- Witness for C3 (amended) at the specification's example catalog:
the `02:06` entry (index 2) is selected. -/
theorem claim_c3_amended_witness :
    ∃ i, ∃ h : i < ([⟨"2018-07-13 02:03", "a"⟩, ⟨"2018-07-13 02:04", "b"⟩,
        ⟨"2018-07-13 02:06", "c"⟩, ⟨"2018-07-13 02:05", "d"⟩] :
        List AvailableBackup).length,
      LatestAvailableBackup [⟨"2018-07-13 02:03", "a"⟩, ⟨"2018-07-13 02:04", "b"⟩,
          ⟨"2018-07-13 02:06", "c"⟩, ⟨"2018-07-13 02:05", "d"⟩] =
        .ok ([⟨"2018-07-13 02:03", "a"⟩, ⟨"2018-07-13 02:04", "b"⟩,
          ⟨"2018-07-13 02:06", "c"⟩, ⟨"2018-07-13 02:05", "d"⟩] :
          List AvailableBackup)[i] ∧
      (∀ j, ∀ hj : j < ([⟨"2018-07-13 02:03", "a"⟩, ⟨"2018-07-13 02:04", "b"⟩,
          ⟨"2018-07-13 02:06", "c"⟩, ⟨"2018-07-13 02:05", "d"⟩] :
          List AvailableBackup).length,
        tsAfter (parsedVersion ([⟨"2018-07-13 02:03", "a"⟩, ⟨"2018-07-13 02:04", "b"⟩,
          ⟨"2018-07-13 02:06", "c"⟩, ⟨"2018-07-13 02:05", "d"⟩] :
          List AvailableBackup)[j])
          (parsedVersion ([⟨"2018-07-13 02:03", "a"⟩, ⟨"2018-07-13 02:04", "b"⟩,
          ⟨"2018-07-13 02:06", "c"⟩, ⟨"2018-07-13 02:05", "d"⟩] :
          List AvailableBackup)[i]) = false) ∧
      (∀ j, ∀ hj : j < ([⟨"2018-07-13 02:03", "a"⟩, ⟨"2018-07-13 02:04", "b"⟩,
          ⟨"2018-07-13 02:06", "c"⟩, ⟨"2018-07-13 02:05", "d"⟩] :
          List AvailableBackup).length, j < i →
        tsAfter (parsedVersion ([⟨"2018-07-13 02:03", "a"⟩, ⟨"2018-07-13 02:04", "b"⟩,
          ⟨"2018-07-13 02:06", "c"⟩, ⟨"2018-07-13 02:05", "d"⟩] :
          List AvailableBackup)[i])
          (parsedVersion ([⟨"2018-07-13 02:03", "a"⟩, ⟨"2018-07-13 02:04", "b"⟩,
          ⟨"2018-07-13 02:06", "c"⟩, ⟨"2018-07-13 02:05", "d"⟩] :
          List AvailableBackup)[j]) = true) :=
  claim_c3_amended
    [⟨"2018-07-13 02:03", "a"⟩, ⟨"2018-07-13 02:04", "b"⟩,
      ⟨"2018-07-13 02:06", "c"⟩, ⟨"2018-07-13 02:05", "d"⟩]
    (by decide) (by decide) (by decide)

/-- Claim C10: a non-empty catalog in which every candidate has a
non-empty URL and a version parsing exactly to Go's zero time
`0001-01-01 00:00` (never strictly after the initial running maximum)
yields the zero-valued candidate — empty version and empty URL — with
no error, rather than any candidate of the input set. -/
theorem claim_c10 (ab : List AvailableBackup) (hne : ab ≠ [])
    (h : ∀ t ∈ ab, t.URL ≠ "" ∧ parseTodoistTime t.Version = some zeroTimestamp) :
    LatestAvailableBackup ab = .ok ⟨"", ""⟩ := by
  have hlen : ¬ ab.length = 0 := fun h0 => hne (List.length_eq_zero.mp h0)
  rw [LatestAvailableBackup, if_neg hlen]
  exact latestLoop_zero ab h ⟨"", ""⟩

/-- Witness for C10 at a concrete one-entry catalog. -/
theorem claim_c10_witness :
    ([(⟨"0001-01-01 00:00", "http://example.com"⟩ : AvailableBackup)] ≠ [])
    ∧ LatestAvailableBackup [⟨"0001-01-01 00:00", "http://example.com"⟩] =
        .ok ⟨"", ""⟩ :=
  ⟨by decide,
    claim_c10 [⟨"0001-01-01 00:00", "http://example.com"⟩] (by decide) (by decide)⟩

/-! ## Lemmas about the filename sanitizer -/

theorem utf8Size_replaceChar (c : Char) :
    (replaceChar c).utf8Size = c.utf8Size := by
  rw [replaceChar]
  by_cases h : illegalChar c = true
  · rw [if_pos h]
    simp only [illegalChar, Bool.or_eq_true, decide_eq_true_eq] at h
    rcases h with ((((((h1 | h1) | h1) | h1) | h1) | h1) | h1) | h1 <;>
      rw [h1] <;> decide
  · rw [if_neg h]

theorem illegalChar_replaceChar (c : Char) :
    illegalChar (replaceChar c) = false := by
  rw [replaceChar]
  by_cases h : illegalChar c = true
  · rw [if_pos h]; decide
  · rw [if_neg h]
    revert h
    cases illegalChar c <;> simp

theorem replaceChar_eq_slash {c : Char} (h : replaceChar c = '/') : c = '/' := by
  by_cases hc : illegalChar c = true
  · rw [replaceChar, if_pos hc] at h; cases h
  · rwa [replaceChar, if_neg hc] at h

theorem replaceChar_idem (c : Char) :
    replaceChar (replaceChar c) = replaceChar c := by
  have h := illegalChar_replaceChar c
  rw [replaceChar, replaceChar]
  by_cases hc : illegalChar c = true
  · rw [if_pos hc]
    rw [replaceChar, if_pos hc] at h
    rw [if_neg (by rw [h]; simp)]
  · rw [if_neg hc, if_neg hc]

theorem goLen_map_replaceChar (l : List Char) :
    goLen (l.map replaceChar) = goLen l := by
  rw [goLen, goLen, List.map_map]
  congr 1
  exact List.map_congr_left (fun c _ => utf8Size_replaceChar c)

theorem goLen_append (a b : List Char) :
    goLen (a ++ b) = goLen a + goLen b := by
  rw [goLen, goLen, goLen, List.map_append, List.sum_append]

theorem goLen_reverse (l : List Char) : goLen l.reverse = goLen l := by
  rw [goLen, goLen, List.map_reverse, List.sum_reverse]

theorem goLen_dropWhile_le (p : Char → Bool) (l : List Char) :
    goLen (l.dropWhile p) ≤ goLen l := by
  conv_rhs => rw [← List.takeWhile_append_dropWhile p l]
  rw [goLen_append]
  omega

theorem goLen_trimSlashes_le (l : List Char) :
    goLen (trimSlashes l) ≤ goLen l := by
  rw [trimSlashes, goLen_reverse]
  calc goLen ((l.dropWhile (fun c => c == '/')).reverse.dropWhile (fun c => c == '/'))
      ≤ goLen (l.dropWhile (fun c => c == '/')).reverse :=
        goLen_dropWhile_le _ _
    _ = goLen (l.dropWhile (fun c => c == '/')) := goLen_reverse _
    _ ≤ goLen l := goLen_dropWhile_le _ _

theorem head?_dropWhile_slash {l : List Char} {c : Char}
    (h : (l.dropWhile (fun c => c == '/')).head? = some c) : c ≠ '/' := by
  induction l with
  | nil => cases h
  | cons a t ih =>
    by_cases ha : (a == '/') = true
    · rw [List.dropWhile_cons, if_pos ha] at h
      exact ih h
    · rw [List.dropWhile_cons, if_neg ha] at h
      cases h
      intro hc
      exact ha (by rw [hc]; rfl)

theorem dropWhile_slash_eq_self {l : List Char}
    (h : ∀ c, l.head? = some c → c ≠ '/') :
    l.dropWhile (fun c => c == '/') = l := by
  cases l with
  | nil => rfl
  | cons a t =>
    rw [List.dropWhile_cons, if_neg ?_]
    intro ha
    exact h a rfl (by simpa using ha)

theorem takeWhile_slash_replicate (l : List Char) :
    l.takeWhile (fun c => c == '/') =
      List.replicate (l.takeWhile (fun c => c == '/')).length '/' :=
  List.eq_replicate_of_mem (fun c hc => by
    have := List.mem_takeWhile_imp hc
    simpa using this)

theorem getLast?_dropWhile_of_ne_nil {p : Char → Bool} {l : List Char}
    (h : l.dropWhile p ≠ []) :
    (l.dropWhile p).getLast? = l.getLast? := by
  conv_rhs => rw [← List.takeWhile_append_dropWhile p l]
  rw [List.getLast?_append]
  cases hl : (l.dropWhile p).getLast? with
  | none => exact absurd (List.getLast?_eq_none_iff.mp hl) h
  | some c => rfl

theorem trimSlashes_head {l : List Char} {c : Char}
    (h : (trimSlashes l).head? = some c) : c ≠ '/' := by
  rw [trimSlashes, List.head?_reverse] at h
  have hne : ((l.dropWhile (fun c => c == '/')).reverse.dropWhile
      (fun c => c == '/')) ≠ [] := by
    intro h0
    rw [h0] at h
    cases h
  rw [getLast?_dropWhile_of_ne_nil hne, List.getLast?_reverse] at h
  exact head?_dropWhile_slash h

theorem trimSlashes_getLast {l : List Char} {c : Char}
    (h : (trimSlashes l).getLast? = some c) : c ≠ '/' := by
  rw [trimSlashes, List.getLast?_reverse] at h
  exact head?_dropWhile_slash h

theorem trimSlashes_decomp (l : List Char) :
    ∃ a b, l = List.replicate a '/' ++ trimSlashes l ++ List.replicate b '/' := by
  refine ⟨(l.takeWhile (fun c => c == '/')).length,
    ((l.dropWhile (fun c => c == '/')).reverse.takeWhile (fun c => c == '/')).length,
    ?_⟩
  conv_lhs => rw [← List.takeWhile_append_dropWhile (fun c => c == '/') l]
  rw [List.append_assoc]
  congr 1
  · exact takeWhile_slash_replicate l
  · have hu : l.dropWhile (fun c => c == '/') =
        ((l.dropWhile (fun c => c == '/')).reverse).reverse := by
      rw [List.reverse_reverse]
    conv_lhs => rw [hu]
    conv_lhs =>
      rw [← List.takeWhile_append_dropWhile (fun c => c == '/')
        (l.dropWhile (fun c => c == '/')).reverse]
    rw [List.reverse_append, trimSlashes]
    congr 1
    conv_lhs =>
      rw [takeWhile_slash_replicate (l.dropWhile (fun c => c == '/')).reverse]
    rw [List.reverse_replicate]

theorem trimSlashes_eq_self {l : List Char}
    (hh : ∀ c, l.head? = some c → c ≠ '/')
    (hl : ∀ c, l.getLast? = some c → c ≠ '/') :
    trimSlashes l = l := by
  rw [trimSlashes, dropWhile_slash_eq_self hh]
  rw [dropWhile_slash_eq_self (fun c hc => hl c (by rwa [List.head?_reverse] at hc))]
  rw [List.reverse_reverse]

theorem string_data_inj {a b : String} (h : a.data = b.data) : a = b := by
  cases a
  cases b
  exact congrArg String.mk (by simpa using h)

theorem cleanFilename_ok_inv {s y : String} (h : cleanFilename s = .ok y) :
    goLen s.data ≤ 400 ∧
    y.data = (trimSlashes s.data).map replaceChar ∧
    hasSub (lastSegment s.data) "~$".data = false ∧
    hasSub (lastSegment s.data) "_vti_".data = false ∧
    ∀ seg ∈ splitOnSlash s.data, disallowedName seg = false := by
  unfold cleanFilename at h
  by_cases h1 : 400 < goLen s.data
  · rw [if_pos h1] at h; cases h
  rw [if_neg h1] at h
  by_cases h2 : hasSub (lastSegment s.data) "~$".data = true
  · rw [if_pos h2] at h; cases h
  rw [if_neg h2] at h
  by_cases h3 : hasSub (lastSegment s.data) "_vti_".data = true
  · rw [if_pos h3] at h; cases h
  rw [if_neg h3] at h
  cases hfind : (splitOnSlash s.data).find? disallowedName with
  | some p => rw [hfind] at h; cases h
  | none =>
    rw [hfind] at h
    cases h
    refine ⟨by omega, rfl, ?_, ?_, ?_⟩
    · revert h2; cases hasSub (lastSegment s.data) "~$".data <;> simp
    · revert h3; cases hasSub (lastSegment s.data) "_vti_".data <;> simp
    · intro seg hseg
      have := List.find?_eq_none.mp hfind seg hseg
      revert this
      cases disallowedName seg <;> simp

theorem cleanFilename_ok_shape {s : String} {y : String}
    (h : cleanFilename s = .ok y) :
    y = String.mk ((trimSlashes s.data).map replaceChar) := by
  have := (cleanFilename_ok_inv h).2.1
  exact string_data_inj this

theorem map_replaceChar_idem (l : List Char) :
    (l.map replaceChar).map replaceChar = l.map replaceChar := by
  rw [List.map_map]
  exact List.map_congr_left (fun c _ => replaceChar_idem c)

/-- Claim C5 counterexample: on an input with two leading and two
trailing slashes, `cleanFilename` removes all of them — yielding
`"backups"`, not the `"/backups/"` that trimming exactly one slash per
side would produce. -/
theorem claim_c5_counterexample :
    cleanFilename "//backups//" = .ok "backups"
    ∧ ("backups" : String) ≠ "/backups/" :=
  ⟨by decide, by decide⟩

/-- Claim C5 (amended): whenever `cleanFilename` succeeds, the input
splits as a (possibly empty) run of leading slashes, a core that
neither starts nor ends with `/`, and a (possibly empty) run of
trailing slashes — i.e. all outermost slashes are trimmed, repeatedly —
and the output is the character-replaced core. -/
theorem claim_c5_amended (s y : String) (h : cleanFilename s = .ok y) :
    ∃ a b m, s.data = List.replicate a '/' ++ m ++ List.replicate b '/'
      ∧ y.data = m.map replaceChar
      ∧ (∀ c, m.head? = some c → c ≠ '/')
      ∧ (∀ c, m.getLast? = some c → c ≠ '/') := by
  obtain ⟨a, b, hdec⟩ := trimSlashes_decomp s.data
  exact ⟨a, b, trimSlashes s.data, hdec, (cleanFilename_ok_inv h).2.1,
    fun c hc => trimSlashes_head hc, fun c hc => trimSlashes_getLast hc⟩

/-- Witness for C5 (amended) at the repository's own test vector. -/
theorem claim_c5_amended_witness :
    cleanFilename "/backups/today.zip/" = .ok "backups/today.zip"
    ∧ ∃ a b m, ("/backups/today.zip/" : String).data =
        List.replicate a '/' ++ m ++ List.replicate b '/'
      ∧ ("backups/today.zip" : String).data = m.map replaceChar
      ∧ (∀ c, m.head? = some c → c ≠ '/')
      ∧ (∀ c, m.getLast? = some c → c ≠ '/') :=
  ⟨by decide,
    claim_c5_amended "/backups/today.zip/" "backups/today.zip" (by decide)⟩

/-- Claim C6 counterexample: the disallow-list check is case-sensitive;
the lower-case segment `con` passes, so `cleanFilename "backups/con"`
succeeds instead of returning an error. -/
theorem claim_c6_counterexample :
    cleanFilename "backups/con" = .ok "backups/con" := by decide

/-- Claim C6 (amended): the sanitizer splits the original path on `/`
and checks each segment case-sensitively against the fixed
disallow-list `.lock`, `CON`, `PRN`, `AUX`, `NUL`, `COM0`–`COM9`,
`LPT0`–`LPT9`, `_vti_`, `desktop.ini`; for every path of byte length at
most 400 containing a segment that matches a disallowed name in the
listed letter case, `cleanFilename` returns an error (the disallow-list
error names the offending segment; a `~$`/`_vti_` violation in the
final segment may be reported instead). -/
theorem claim_c6_amended (s : String) (_hlen : goLen s.data ≤ 400)
    (hseg : ∃ seg ∈ splitOnSlash s.data, disallowedName seg = true) :
    ∃ e, cleanFilename s = .error e := by
  cases hv : cleanFilename s with
  | error e => exact ⟨e, rfl⟩
  | ok y =>
    obtain ⟨seg, hmem, hdis⟩ := hseg
    have := (cleanFilename_ok_inv hv).2.2.2.2 seg hmem
    rw [this] at hdis
    cases hdis

/-- Witness for C6 (amended) at the repository's own test vector. -/
theorem claim_c6_amended_witness :
    goLen ("backups/todoist/CON" : String).data ≤ 400
    ∧ (∃ seg ∈ splitOnSlash ("backups/todoist/CON" : String).data,
        disallowedName seg = true)
    ∧ ∃ e, cleanFilename "backups/todoist/CON" = .error e :=
  ⟨by decide, by decide, claim_c6_amended "backups/todoist/CON" (by decide) (by decide)⟩

/-- Claim C7 counterexample: a `~$` occurrence in a non-final segment
is not detected — `cleanFilename "a~$b/c"` succeeds instead of
returning an error. -/
theorem claim_c7_counterexample :
    cleanFilename "a~$b/c" = .ok "a~$b/c" := by decide

/-- Claim C7 (amended): only the final `/`-separated segment is checked
for the substrings `~$` and `_vti_`: for every path of byte length at
most 400 whose final segment contains `~$` or `_vti_` anywhere within
it, `cleanFilename` returns an error. -/
theorem claim_c7_amended (s : String) (_hlen : goLen s.data ≤ 400)
    (h : hasSub (lastSegment s.data) "~$".data = true
      ∨ hasSub (lastSegment s.data) "_vti_".data = true) :
    ∃ e, cleanFilename s = .error e := by
  cases hv : cleanFilename s with
  | error e => exact ⟨e, rfl⟩
  | ok y =>
    have hinv := cleanFilename_ok_inv hv
    rcases h with h1 | h1
    · rw [hinv.2.2.1] at h1; cases h1
    · rw [hinv.2.2.2.1] at h1; cases h1

/-- Witness for C7 (amended) at the repository's own test vector. -/
theorem claim_c7_amended_witness :
    goLen ("backups/LPT3/~$today" : String).data ≤ 400
    ∧ (hasSub (lastSegment ("backups/LPT3/~$today" : String).data) "~$".data = true
      ∨ hasSub (lastSegment ("backups/LPT3/~$today" : String).data) "_vti_".data = true)
    ∧ ∃ e, cleanFilename "backups/LPT3/~$today" = .error e :=
  ⟨by decide, by decide,
    claim_c7_amended "backups/LPT3/~$today" (by decide) (by decide)⟩

/-- Claim C8 counterexample: `cleanFilename` is not idempotent — it
succeeds on `"~$a/"` with output `"~$a"` (the `~$` check inspected the
original final segment, the empty string after the trailing slash), but
fails on its own output `"~$a"`. -/
theorem claim_c8_counterexample :
    cleanFilename "~$a/" = .ok "~$a"
    ∧ cleanFilename "~$a" = .error "the filename cannot include \"~$\"" :=
  ⟨by decide, by decide⟩

/-- Claim C8 (amended): the transformation part of the sanitizer is
idempotent — whenever `cleanFilename` succeeds on its own output, it
returns it unchanged — but re-running it on its own output may fail,
because the substring and reserved-name checks inspect the
pre-trim/pre-replacement string. -/
theorem claim_c8_amended (x y z : String) (hx : cleanFilename x = .ok y)
    (hy : cleanFilename y = .ok z) : z = y := by
  have hxy : y.data = (trimSlashes x.data).map replaceChar :=
    (cleanFilename_ok_inv hx).2.1
  have hyz : z.data = (trimSlashes y.data).map replaceChar :=
    (cleanFilename_ok_inv hy).2.1
  have htrim : trimSlashes y.data = y.data := by
    apply trimSlashes_eq_self
    · intro c hc
      rw [hxy, List.head?_map] at hc
      cases hh : (trimSlashes x.data).head? with
      | none => rw [hh] at hc; cases hc
      | some c0 =>
        rw [hh] at hc
        cases hc
        intro hslash
        exact trimSlashes_head hh (replaceChar_eq_slash hslash)
    · intro c hc
      rw [hxy, List.getLast?_map] at hc
      cases hh : (trimSlashes x.data).getLast? with
      | none => rw [hh] at hc; cases hc
      | some c0 =>
        rw [hh] at hc
        cases hc
        intro hslash
        exact trimSlashes_getLast hh (replaceChar_eq_slash hslash)
  apply string_data_inj
  rw [hyz, htrim, hxy, map_replaceChar_idem]

/-- Witness for C8 (amended): sanitizing `"/a/"` yields `"a"`, and
sanitizing that output yields it back unchanged. -/
theorem claim_c8_amended_witness :
    cleanFilename "/a/" = .ok "a"
    ∧ cleanFilename "a" = .ok "a"
    ∧ ("a" : String) = "a" :=
  ⟨by decide, by decide, claim_c8_amended "/a/" "a" "a" (by decide) (by decide)⟩

/-- Claim C9 counterexample: character replacement can manufacture a
reserved path segment: `"_vti?"` passes every check (the original
string contains neither the `_vti_` substring in its final segment nor
a disallowed segment), yet the output is exactly the reserved name
`_vti_`. -/
theorem claim_c9_counterexample :
    cleanFilename "_vti?" = .ok "_vti_"
    ∧ ∃ seg ∈ splitOnSlash ("_vti_" : String).data, disallowedName seg = true :=
  ⟨by decide, by decide⟩

/-- Claim C9 (amended): whenever `cleanFilename` succeeds, its output
contains none of the characters `" * : < > ? \ |`, neither starts nor
ends with `/`, and is at most 400 bytes long; the reserved-name
guarantee holds of the input's segments (checked before replacement),
not of the output, which can contain a reserved segment such as `_vti_`
produced by replacement. -/
theorem claim_c9_amended (s y : String) (h : cleanFilename s = .ok y) :
    (∀ c ∈ y.data, illegalChar c = false)
    ∧ (∀ c, y.data.head? = some c → c ≠ '/')
    ∧ (∀ c, y.data.getLast? = some c → c ≠ '/')
    ∧ goLen y.data ≤ 400 := by
  have hinv := cleanFilename_ok_inv h
  have hy : y.data = (trimSlashes s.data).map replaceChar := hinv.2.1
  refine ⟨?_, ?_, ?_, ?_⟩
  · intro c hc
    rw [hy] at hc
    obtain ⟨c0, _, hc0⟩ := List.mem_map.mp hc
    rw [← hc0]
    exact illegalChar_replaceChar c0
  · intro c hc
    rw [hy, List.head?_map] at hc
    cases hh : (trimSlashes s.data).head? with
    | none => rw [hh] at hc; cases hc
    | some c0 =>
      rw [hh] at hc
      cases hc
      intro hslash
      exact trimSlashes_head hh (replaceChar_eq_slash hslash)
  · intro c hc
    rw [hy, List.getLast?_map] at hc
    cases hh : (trimSlashes s.data).getLast? with
    | none => rw [hh] at hc; cases hc
    | some c0 =>
      rw [hh] at hc
      cases hc
      intro hslash
      exact trimSlashes_getLast hh (replaceChar_eq_slash hslash)
  · rw [hy, goLen_map_replaceChar]
    exact le_trans (goLen_trimSlashes_le s.data) hinv.1

/-- Witness for C9 (amended) at the repository's own test vector. -/
theorem claim_c9_amended_witness :
    cleanFilename "backups/this*is:\"a<bad>file?name\\to|use"
      = .ok "backups/this_is__a_bad_file_name_to_use"
    ∧ ((∀ c ∈ ("backups/this_is__a_bad_file_name_to_use" : String).data,
          illegalChar c = false)
      ∧ (∀ c, ("backups/this_is__a_bad_file_name_to_use" : String).data.head?
          = some c → c ≠ '/')
      ∧ (∀ c, ("backups/this_is__a_bad_file_name_to_use" : String).data.getLast?
          = some c → c ≠ '/')
      ∧ goLen ("backups/this_is__a_bad_file_name_to_use" : String).data ≤ 400) :=
  ⟨by decide,
    claim_c9_amended "backups/this*is:\"a<bad>file?name\\to|use"
      "backups/this_is__a_bad_file_name_to_use" (by decide)⟩

/-- Claim C4 counterexample: a payload whose size equals the cap
(5 bytes against a 5-byte cap) is rejected with the size-exceeded
error, although the claim says a payload of at most the cap transfers
without a size error: the limited copy stops at `maxBytes` bytes and
the copied count reaching `maxBytes` already triggers the error. -/
theorem claim_c4_counterexample :
    (List.replicate 5 (0 : UInt8)).length ≤ 5
    ∧ GetBackup (fun _ => 200) "u" (List.replicate 5 (0 : UInt8)) 5 =
        .error "backup size exceeded upload limit" :=
  ⟨by decide, by decide⟩

/-- Claim C4 (amended): when the HTTP layer ends with a 200 response
and no retry error, `GetBackup` returns the size-exceeded error exactly
when the payload size is at least (not strictly over) the configured
maximum byte count, and transfers the whole payload without a size
error when the payload is strictly smaller than the cap. -/
theorem claim_c4_amended (respAt : Nat → Nat) (url : String)
    (payload : List UInt8) (maxBytes n : Nat)
    (hresp : DoWithRetries respAt url 6 = ⟨200, n, none⟩) :
    (maxBytes ≤ payload.length →
      GetBackup respAt url payload maxBytes =
        .error "backup size exceeded upload limit")
    ∧ (payload.length < maxBytes →
      GetBackup respAt url payload maxBytes = .ok payload) := by
  constructor
  · intro hle
    unfold GetBackup
    rw [hresp]
    simp only [ne_eq]
    rw [if_neg (by simp)]
    rw [List.length_take]
    rw [if_pos (by omega)]
  · intro hlt
    unfold GetBackup
    rw [hresp]
    simp only [ne_eq]
    rw [if_neg (by simp)]
    rw [List.length_take]
    rw [if_neg (by omega)]
    rw [List.take_of_length_le (by omega)]

/-- Witness for C4 (amended): with a 5-byte cap, a 5-byte payload is
rejected and a 4-byte payload is transferred whole. -/
theorem claim_c4_amended_witness :
    DoWithRetries (fun _ => 200) "u" 6 = ⟨200, 1, none⟩
    ∧ GetBackup (fun _ => 200) "u" (List.replicate 5 (0 : UInt8)) 5 =
        .error "backup size exceeded upload limit"
    ∧ GetBackup (fun _ => 200) "u" (List.replicate 4 (0 : UInt8)) 5 =
        .ok (List.replicate 4 (0 : UInt8)) :=
  ⟨by decide,
    (claim_c4_amended (fun _ => 200) "u" (List.replicate 5 (0 : UInt8)) 5 1
      (by decide)).1 (by decide),
    (claim_c4_amended (fun _ => 200) "u" (List.replicate 4 (0 : UInt8)) 5 1
      (by decide)).2 (by decide)⟩

/-- Claim C1 counterexample: in a concrete Google Drive backup cycle
the name handed to the upload collaborator is the raw version label
`2018-07-13 02:05` — it differs from the sanitizer's output on a
prefix-plus-version path and is not even a sanitizer fixed point (the
sanitizer would replace its `:`), so it has not passed through
`cleanFilename` at all. -/
theorem claim_c1_counterexample :
    runBackup [⟨"2018-07-13 02:05", "http://x"⟩] (fun _ => 200) [] ["fid"]
      = .ok ⟨"application/zip", "2018-07-13 02:05", ["fid"]⟩
    ∧ cleanFilename "backups/2018-07-13 02:05" = .ok "backups/2018-07-13 02_05"
    ∧ ("2018-07-13 02:05" : String) ≠ "backups/2018-07-13 02_05"
    ∧ cleanFilename "2018-07-13 02:05" = .ok "2018-07-13 02_05"
    ∧ ("2018-07-13 02:05" : String) ≠ "2018-07-13 02_05" :=
  ⟨by decide, by decide, by decide, by decide, by decide⟩

/-- Claim C1 (amended): in every Google Drive backup cycle that
reaches the upload, the name handed to the destination-upload
collaborator — and placed verbatim in the Drive `Files.Create` call —
is the selected backup's bare version label: no destination prefix is
joined and no sanitizer is applied on this path (the OneDrive variant
sanitizes the bare label inside its `UploadFile`). -/
theorem claim_c1_amended (ab : List AvailableBackup) (respAt : Nat → Nat)
    (payload : List UInt8) (folders : List String) (u : AvailableBackup)
    (call : DriveCreateCall) (hsel : LatestAvailableBackup ab = .ok u)
    (hrun : runBackup ab respAt payload folders = .ok call) :
    call.name = u.Version := by
  unfold runBackup at hrun
  rw [hsel] at hrun
  have hrun2 : (match GetBackup respAt u.URL payload maxResponseBodyBytes with
      | .error e => (Except.error e : Except String DriveCreateCall)
      | .ok _ => UploadFile u.Version folders) = Except.ok call := hrun
  clear hrun
  cases hget : GetBackup respAt u.URL payload maxResponseBodyBytes with
  | error e => rw [hget] at hrun2; cases hrun2
  | ok body =>
    rw [hget] at hrun2
    rcases folders with _ | ⟨d, _ | ⟨d2, rest⟩⟩
    · cases hrun2
    · cases hrun2
      rfl
    · cases hrun2

/-- Witness for C1 (amended) at a concrete cycle. -/
theorem claim_c1_amended_witness :
    LatestAvailableBackup [⟨"2018-07-13 02:06", "http://x"⟩] =
      .ok ⟨"2018-07-13 02:06", "http://x"⟩
    ∧ runBackup [⟨"2018-07-13 02:06", "http://x"⟩] (fun _ => 200) [] ["fid"]
      = .ok ⟨"application/zip", "2018-07-13 02:06", ["fid"]⟩
    ∧ (DriveCreateCall.mk "application/zip" "2018-07-13 02:06" ["fid"]).name
      = (AvailableBackup.mk "2018-07-13 02:06" "http://x").Version :=
  ⟨by decide, by decide,
    claim_c1_amended [⟨"2018-07-13 02:06", "http://x"⟩] (fun _ => 200) [] ["fid"]
      ⟨"2018-07-13 02:06", "http://x"⟩
      ⟨"application/zip", "2018-07-13 02:06", ["fid"]⟩
      (by decide) (by decide)⟩
